import Mathlib

/-!
Verification of the Quantam async pipeline engine (src/src/core.ts).

The engine is embedded shallowly:
* step functions are pure functions of the input and the execution context,
  each invocation reporting a duration (milliseconds) and a result;
* time is an explicit millisecond clock threaded through the executor;
* an `AbortSignal` is modelled by the instant at which it fires
  (`none` = never aborted);
* the retry loop of `executeSingleStep` (core.ts lines 174-218) is a
  recursion on the remaining attempts, recording a trace of the function
  invocations and the completed backoff sleeps.
-/

namespace Quantam

/-- Kind of an error surfaced by the engine: cancellation
(`Pipeline aborted` / `Sleep aborted`), a timeout raced in by
`createTimeout`, or a failure thrown by the step function itself. -/
inductive ErrKind
  | cancelled
  | timedOut
  | userError
deriving DecidableEq, Repr

/-- A JavaScript error: its kind together with its (mutable in JS) message. -/
structure JsError where
  kind : ErrKind
  message : String
deriving DecidableEq, Repr

/-- core.ts line 238: `throw new Error('Pipeline aborted')`. -/
def pipelineAbortedErr : JsError := ⟨ErrKind.cancelled, "Pipeline aborted"⟩

/-- core.ts line 255: `reject(new Error('Sleep aborted'))`. -/
def sleepAbortedErr : JsError := ⟨ErrKind.cancelled, "Sleep aborted"⟩

/-- core.ts line 244: the error rejected by `createTimeout(ms)`. -/
def timeoutErr (ms : Nat) : JsError :=
  ⟨ErrKind.timedOut, "Timeout after " ++ toString ms ++ "ms"⟩

/-- The `ExecutionContext` of src/src/types.ts: the signal is the instant at
which it aborts (`none` = never). -/
structure Ctx where
  signal : Option Nat
  stepIndex : Nat
  stepName : Option String
  retryCount : Nat
deriving DecidableEq, Repr

/-- One invocation of an async step function: how long it runs and whether it
resolves with a value or rejects with an error message. -/
structure FnRes (V : Type) where
  duration : Nat
  result : Except String V

/-- A step function `(input, context) => Promise<R>`. -/
def AsyncFn (V : Type) : Type := V → Ctx → FnRes V

/-- `signal?.aborted` at instant `t` (core.ts line 237). -/
def aborted (signal : Option Nat) (t : Nat) : Bool :=
  match signal with
  | some a => decide (a ≤ t)
  | none => false

/-- JavaScript `1 << n` (core.ts line 203): the shift count is reduced
mod 32 and the result is a signed 32-bit integer, so `1 << 31` is `-2^31`. -/
def jsShl1 (n : Nat) : Int :=
  if n % 32 = 31 then -(2 ^ 31) else 2 ^ (n % 32)

/-- JavaScript `hay.includes(sub)`: substring containment. -/
def strIncl (hay sub : String) : Bool :=
  decide (sub.toList <:+: hay.toList)

/-- core.ts line 210: `context.stepName ? \x60 '${context.stepName}'\x60 : ''`;
an absent or empty name is falsy and yields the empty label. -/
def stepLabelOf (stepName : Option String) : String :=
  match stepName with
  | some n => if n = "" then "" else " '" ++ n ++ "'"
  | none => ""

/-- core.ts lines 209-215: when the step has a (non-empty) name and the last
error's message does not already contain the quoted name, append
` (at step '<name>')` to the message. -/
def suffixError (stepName : Option String) (e : JsError) : JsError :=
  let label := stepLabelOf stepName
  if label ≠ "" ∧ strIncl e.message label = false then
    { e with message := e.message ++ " (at step" ++ label ++ ")" }
  else e

/-- Model of `sleep(ms, signal)` (core.ts lines 248-264), entered at instant
`t`: the pair of the milliseconds actually waited and an abort error when the
wait was cut short. `setTimeout` clamps a negative delay to 0. An already
aborted signal rejects at once; an abort during the wait clears the timer and
rejects at the abort instant. -/
def sleepResult (signal : Option Nat) (t : Nat) (delay : Int) : Nat × Option JsError :=
  let wait := delay.toNat
  match signal with
  | none => (wait, none)
  | some a =>
    if a ≤ t then (0, some sleepAbortedErr)
    else if a < t + wait then (a - t, some sleepAbortedErr)
    else (wait, none)

/-- The outcome of `executeSingleStep`: the settled result, the contexts the
step function was invoked with (in order), the completed backoff sleeps
(milliseconds, in order) and the clock when the call settled. -/
structure ExecOut (V : Type) where
  result : Except JsError V
  invocations : List Ctx
  sleeps : List Nat
  time : Nat

variable {V : Type}

/-- Wrap a step function failure as a thrown error (kind `userError`). -/
def userRes (r : Except String V) : Except JsError V :=
  r.mapError (fun s => ⟨ErrKind.userError, s⟩)

/-- The attempt loop of `executeSingleStep` (core.ts lines 182-218), entered
at attempt number `attempt` with `left` further attempts allowed
(`left = retries - attempt`) at instant `t`.

Per attempt: poll the signal (line 186; a hit is caught at line 199 and, when
attempts remain, the backoff sleep at line 204 rejects at once because the
signal is already aborted — that rejection escapes the catch block and skips
the message-suffix code); otherwise set `context.retryCount = attempt`
(line 187), invoke the function (line 189), race it against
`stepTimeout ?? this.timeoutMs` when that is truthy (lines 190-196; the timer
wins when the invocation runs at least as long as the budget), return on
success (line 198), and on failure either sleep
`retryDelay * (1 << attempt)` and recurse (lines 202-205) or, with no
attempt left, rethrow the last error suffixed with the step name
(lines 209-215). -/
def execFrom (fn : AsyncFn V) (input : V) (ctx : Ctx) (retryDelay : Nat)
    (stepTimeout flowTimeout : Option Nat) :
    (attempt : Nat) → (left : Nat) → (t : Nat) → ExecOut V
  | attempt, left, t =>
    if aborted ctx.signal t then
      match left with
      | 0 => ⟨Except.error (suffixError ctx.stepName pipelineAbortedErr), [], [], t⟩
      | _ + 1 => ⟨Except.error sleepAbortedErr, [], [], t⟩
    else
      let c : Ctx := { ctx with retryCount := attempt }
      let fr := fn input c
      let eff := stepTimeout <|> flowTimeout
      let raced : Nat × Except JsError V :=
        match eff with
        | some m =>
          if m ≠ 0 ∧ m ≤ fr.duration then (m, Except.error (timeoutErr m))
          else (fr.duration, userRes fr.result)
        | none => (fr.duration, userRes fr.result)
      match raced with
      | (dt, Except.ok v) => ⟨Except.ok v, [c], [], t + dt⟩
      | (dt, Except.error e) =>
        match left with
        | 0 => ⟨Except.error (suffixError ctx.stepName e), [c], [], t + dt⟩
        | left' + 1 =>
          let delay := (retryDelay : Int) * jsShl1 attempt
          match sleepResult ctx.signal (t + dt) delay with
          | (w, some se) => ⟨Except.error se, [c], [], t + dt + w⟩
          | (w, none) =>
            let rest := execFrom fn input ctx retryDelay stepTimeout flowTimeout
              (attempt + 1) left' (t + dt + w)
            ⟨rest.result, c :: rest.invocations, w :: rest.sleeps, rest.time⟩

/-- `executeSingleStep(fn, input, context, retries, retryDelay, stepTimeout)`
(core.ts lines 174-219) entered at instant `t`; `flowTimeout` is
`this.timeoutMs`, consulted at line 190. -/
def executeSingleStep (fn : AsyncFn V) (input : V) (ctx : Ctx)
    (retries retryDelay : Nat) (stepTimeout flowTimeout : Option Nat)
    (t : Nat) : ExecOut V :=
  execFrom fn input ctx retryDelay stepTimeout flowTimeout 0 retries t

/-- A `single` step of the internal `Step` record (core.ts lines 8-16):
optional fields exactly as in the source. The `parallel` variant is modelled
separately (see the shared-context machine below). -/
structure SStep (V : Type) where
  fn : AsyncFn V
  retries : Option Nat
  retryDelay : Option Nat
  timeout : Option Nat
  name : Option String

/-- core.ts line 156: `step.retryDelay || 100` — an absent *or zero* delay is
replaced by the default 100. -/
def effRetryDelay (d : Option Nat) : Nat :=
  match d with
  | none => 100
  | some v => if v = 0 then 100 else v

/-- The outcome of `run`: the settled result and, per step started, the
`ExecOut` of its `executeSingleStep` call. -/
structure RunOut (V : Type) where
  result : Except JsError V
  trace : List (ExecOut V)

/-- The step loop of `run` (core.ts lines 142-169) over `single` steps:
poll the signal before each step (line 143; this throw leaves `run` directly,
without the step-name suffix), refresh the context fields (lines 146-148) and
delegate to the step executor with `step.retries || 0` (line 155) and
`step.retryDelay || 100` (line 156), threading each step's result into the
next. -/
def runGo (flowTimeout : Option Nat) (signal : Option Nat) :
    List (SStep V) → Nat → V → Nat → RunOut V
  | [], _, acc, _ => ⟨Except.ok acc, []⟩
  | s :: rest, i, acc, t =>
    if aborted signal t then ⟨Except.error pipelineAbortedErr, []⟩
    else
      let ctx : Ctx := ⟨signal, i, s.name, 0⟩
      let out := executeSingleStep s.fn acc ctx (s.retries.getD 0)
        (effRetryDelay s.retryDelay) s.timeout flowTimeout t
      match out.result with
      | Except.ok v =>
        let r := runGo flowTimeout signal rest (i + 1) v out.time
        ⟨r.result, out :: r.trace⟩
      | Except.error e => ⟨Except.error e, [out]⟩

/-- `run(input, options)` (core.ts lines 133-172) for a flow of `single`
steps: the effective signal is `options?.signal || this.abortSignal`
(line 134). -/
def runFlow (flowTimeout : Option Nat) (flowSignal : Option Nat)
    (steps : List (SStep V)) (input : V) (optSignal : Option Nat) : RunOut V :=
  runGo flowTimeout (optSignal <|> flowSignal) steps 0 input 0

/-- The effective timeout `stepTimeout ?? this.timeoutMs` does not fire on an
invocation of duration `d`: it is absent, zero (falsy, so no race is set up)
or longer than the invocation. -/
def noFire (stepTimeout flowTimeout : Option Nat) (d : Nat) : Prop :=
  match stepTimeout <|> flowTimeout with
  | some m => m = 0 ∨ d < m
  | none => True

/-- A step that cannot fail: its function always resolves with `g` applied to
the invocation input, and its effective timeout (step-specific, else the flow
default) never fires. -/
def PureNoFire (flowTimeout : Option Nat) (s : SStep V) (g : V → V) : Prop :=
  ∀ v c, (s.fn v c).result = Except.ok (g v) ∧
    noFire s.timeout flowTimeout (s.fn v c).duration

/-! ### The builder (core.ts lines 18-98) with JavaScript object identity

Each builder method creates a new `Quantam` object and copies the `steps`
array with a spread — a *shallow* copy: the array cells still reference the
same `Step` objects. `Step` objects therefore live on an explicit heap (a
list indexed by allocation order) and a flow holds references into it. -/

/-- The `type` tag of the internal `Step` record (core.ts line 9). -/
inductive StepKind
  | single
  | parallel
deriving DecidableEq, Repr

/-- The mutable `Step` record (core.ts lines 8-16); the function slots hold
opaque function identities. -/
structure StepObj where
  kind : StepKind
  fnId : Option Nat
  fnIds : List Nat
  retries : Option Nat
  retryDelay : Option Nat
  timeout : Option Nat
  name : Option String
deriving DecidableEq, Repr

/-- The heap of allocated `Step` objects; a reference is an index. -/
abbrev Heap : Type := List StepObj

/-- A `Quantam` object: the step reference array plus the flow-level fields
(core.ts lines 19-21). -/
structure FlowObj where
  steps : List Nat
  timeoutMs : Option Nat
  abortSignal : Option Nat
deriving DecidableEq, Repr

/-- Mutate the heap object at `ref` in place. -/
def heapModify (h : Heap) (ref : Nat) (g : StepObj → StepObj) : Heap :=
  match h.get? ref with
  | some o => h.set ref (g o)
  | none => h

/-- `step(fn)` (core.ts lines 23-30): copy the flow fields and the step
reference array, allocate a fresh `single` Step and push its reference. -/
def stepOp (f : FlowObj) (h : Heap) (fnId : Nat) : FlowObj × Heap :=
  (⟨f.steps ++ [h.length], f.timeoutMs, f.abortSignal⟩,
    h ++ [⟨StepKind.single, some fnId, [], none, none, none, none⟩])

/-- `parallel(fns)` (core.ts lines 32-39). -/
def parallelOp (f : FlowObj) (h : Heap) (fnIds : List Nat) : FlowObj × Heap :=
  (⟨f.steps ++ [h.length], f.timeoutMs, f.abortSignal⟩,
    h ++ [⟨StepKind.parallel, none, fnIds, none, none, none, none⟩])

/-- `name(label)` (core.ts lines 41-53): copy the flow (the copied array
holds the same step references); when a last step exists, assign
`lastStep.name = label` — an in-place mutation of the referenced `Step`
object, visible through every array that references it. -/
def nameOp (f : FlowObj) (h : Heap) (label : String) : FlowObj × Heap :=
  match f.steps.getLast? with
  | some ref => (f, heapModify h ref (fun o => { o with name := some label }))
  | none => (f, h)

/-- `retry(count, delayMs)` (core.ts lines 55-68): mutates the referenced
last `Step` object's `retries` and `retryDelay` fields in place. -/
def retryOp (f : FlowObj) (h : Heap) (count delayMs : Nat) : FlowObj × Heap :=
  match f.steps.getLast? with
  | some ref =>
    (f, heapModify h ref
      (fun o => { o with retries := some count, retryDelay := some delayMs }))
  | none => (f, h)

/-- `stepTimeout(ms)` (core.ts lines 70-82): mutates the referenced last
`Step` object's `timeout` field in place. -/
def stepTimeoutOp (f : FlowObj) (h : Heap) (ms : Nat) : FlowObj × Heap :=
  match f.steps.getLast? with
  | some ref => (f, heapModify h ref (fun o => { o with timeout := some ms }))
  | none => (f, h)

/-- `withSignal(signal)` (core.ts lines 84-90): flow-level field only. -/
def withSignalOp (f : FlowObj) (h : Heap) (signal : Nat) : FlowObj × Heap :=
  (⟨f.steps, f.timeoutMs, some signal⟩, h)

/-- `timeout(ms)` (core.ts lines 92-98): flow-level field only. -/
def timeoutOp (f : FlowObj) (h : Heap) (ms : Nat) : FlowObj × Heap :=
  (⟨f.steps, some ms, f.abortSignal⟩, h)

/-! ### The batch scheduler (`runMany`, core.ts lines 100-131)

With `0 < concurrency < inputs.length`, `runMany` starts
`Math.min(concurrency, inputs.length)` workers sharing the cursor `index`;
each worker repeatedly claims `const currentIndex = index++` (one
synchronous segment of its async body — atomic on the event loop), awaits
`run` on the claimed input and stores the result at the claimed position.
The machine below runs the workers under an arbitrary interleaving: each
schedule entry names the worker that advances by one segment. -/

/-- The phase of one worker (core.ts lines 113-121): `idle` = about to
claim, `running i` = awaiting `run(inputs[i])`, `done` = left its loop,
`failed` = its awaited `run` rejected (so the whole batch will reject). -/
inductive WStatus
  | idle
  | running (i : Nat)
  | done
  | failed
deriving DecidableEq, Repr

/-- The scheduler state: the shared cursor `index`, the `results` array, the
workers and the log of indices claimed below `N` (in claim order). -/
structure BatchState (V : Type) where
  cursor : Nat
  results : List (Option V)
  workers : List WStatus
  claims : List Nat

/-- One scheduling step: worker `w` advances one atomic segment. An `idle`
worker executes `const currentIndex = index++` and either starts
`run(inputs[currentIndex])` (when `currentIndex < N`) or breaks out of its
loop (line 116); a `running` worker settles its awaited `run`, storing the
value at its claimed index (line 119) or rejecting. `exec i` is the settled
outcome of `run(inputs[i], options)`. -/
def batchStep (N : Nat) (exec : Nat → Except JsError V)
    (s : BatchState V) (w : Nat) : BatchState V :=
  match s.workers.get? w with
  | some WStatus.idle =>
    if s.cursor < N then
      ⟨s.cursor + 1, s.results, s.workers.set w (WStatus.running s.cursor),
        s.claims ++ [s.cursor]⟩
    else
      ⟨s.cursor + 1, s.results, s.workers.set w WStatus.done, s.claims⟩
  | some (WStatus.running i) =>
    match exec i with
    | Except.ok v =>
      ⟨s.cursor, s.results.set i (some v), s.workers.set w WStatus.idle, s.claims⟩
    | Except.error _ =>
      ⟨s.cursor, s.results, s.workers.set w WStatus.failed, s.claims⟩
  | _ => s

/-- The initial state: `workerCount = Math.min(concurrency, inputs.length)`
workers (core.ts line 124), each about to claim its first index. -/
def batchInit (V : Type) (N C : Nat) : BatchState V :=
  ⟨0, List.replicate N none, List.replicate (min C N) WStatus.idle, []⟩

/-- Run the worker pool under the interleaving `sched` (a schedule entry
naming an absent worker is a no-op). -/
def batchRun (N C : Nat) (exec : Nat → Except JsError V)
    (sched : List Nat) : BatchState V :=
  sched.foldl (batchStep N exec) (batchInit V N C)

/-- The number of `run` invocations in flight. -/
def inFlight (s : BatchState V) : Nat :=
  s.workers.countP (fun w => match w with | WStatus.running _ => true | _ => false)

/-! ### A parallel group's shared ExecutionContext (core.ts lines 221-234)

`executeParallelSteps` passes the *same* `context` object to
`executeSingleStep` for every member of the group (line 230), so every
member's executor writes `context.retryCount = attempt` (line 187) into the
one shared record, and a member function that reads `context.retryCount`
after a suspension point can observe a sibling's write. A member's execution
is a list of atomic segments (the synchronous runs between awaits); a
segment is a list of primitive operations on the shared field. -/

/-- A primitive operation on the shared context's `retryCount` field: the
executor's write `context.retryCount = attempt` (line 187), or a read
performed by the member's own function body. -/
inductive COp
  | wr (n : Nat)
  | rd
deriving DecidableEq, Repr

/-- State of a parallel group execution with the shared context: the shared
`retryCount` field, each member's remaining segments and each member's log
of the values its function read. -/
structure ParState where
  rc : Nat
  pending : List (List (List COp))
  obs : List (List Nat)
deriving DecidableEq, Repr

/-- Run one atomic segment of member `m` against the shared field. -/
def runSegOps (m : Nat) : List COp → ParState → ParState
  | [], s => s
  | COp.wr n :: ops, s => runSegOps m ops { s with rc := n }
  | COp.rd :: ops, s =>
    runSegOps m ops
      { s with obs :=
          match s.obs.get? m with
          | some l => s.obs.set m (l ++ [s.rc])
          | none => s.obs }

/-- One scheduling step: member `m` runs its next atomic segment, if any. -/
def parStep (s : ParState) (m : Nat) : ParState :=
  match s.pending.get? m with
  | some (seg :: rest) =>
    runSegOps m seg { s with pending := s.pending.set m rest }
  | _ => s

/-- Run the group members under the interleaving `sched`, all sharing the
one context; the shared field starts at 0 (`run` sets
`context.retryCount = 0` at line 148 before dispatching the step). -/
def parRunShared (members : List (List (List COp))) (sched : List Nat) : ParState :=
  sched.foldl parStep ⟨0, members, members.map (fun _ => [])⟩

/-- Modelled from the spec: the claim's reading, under which each member of
a parallel group has "its own retry-count stream". Same members, same
schedules, but each member owns a private copy of the retry-count field: a
write touches only the writer's copy and a read sees only the reader's. -/
structure ParStateIso where
  rcs : List Nat
  pending : List (List (List COp))
  obs : List (List Nat)
deriving DecidableEq, Repr

/-- Run one atomic segment of member `m` on per-member retry counts. -/
def runSegOpsIso (m : Nat) : List COp → ParStateIso → ParStateIso
  | [], s => s
  | COp.wr n :: ops, s => runSegOpsIso m ops { s with rcs := s.rcs.set m n }
  | COp.rd :: ops, s =>
    runSegOpsIso m ops
      { s with obs :=
          match s.obs.get? m, s.rcs.get? m with
          | some l, some v => s.obs.set m (l ++ [v])
          | _, _ => s.obs }

/-- One scheduling step of the isolated-context machine. -/
def parStepIso (s : ParStateIso) (m : Nat) : ParStateIso :=
  match s.pending.get? m with
  | some (seg :: rest) =>
    runSegOpsIso m seg { s with pending := s.pending.set m rest }
  | _ => s

/-- Run the group members under `sched` with per-member retry counts. -/
def parRunIso (members : List (List (List COp))) (sched : List Nat) : ParStateIso :=
  sched.foldl parStepIso ⟨members.map (fun _ => 0), members, members.map (fun _ => [])⟩

/-- Member A of the concrete group: configured `retry(1, 100)`; its function
rejects synchronously on attempt 0 and resolves synchronously on attempt 1.
Its two atomic segments, separated by the 100ms backoff sleep (line 204):
attempt 0's `context.retryCount = 0` (line 187), then attempt 1's
`context.retryCount = 1`. -/
def memberA : List (List COp) := [[COp.wr 0], [COp.wr 1]]

/-- Member B of the concrete group: its function awaits a 200ms timer and
then reads `context.retryCount`. Segment 1: the executor's
`context.retryCount = 0` (line 187) plus the function's synchronous prefix
up to its await; segment 2: the function resumes and reads the field. -/
def memberB : List (List COp) := [[COp.wr 0], [COp.rd]]

/-- The interleaving those timers force: `fns.map` (line 229) starts A then
B synchronously; A's 100ms backoff fires before B's 200ms timer, so A's
second attempt runs before B's read. -/
def groupSched : List Nat := [0, 1, 0, 1]

/-! ### Concrete step functions used as witnesses -/

/-- The test suite's flaky step: throws while `retryCount < 2`, then
returns `n + retryCount`. -/
def flakyStep : AsyncFn Nat := fun v c =>
  if c.retryCount < 2 then ⟨0, Except.error "transient"⟩
  else ⟨0, Except.ok (v + c.retryCount)⟩

/-- A step that fails only on its first attempt. -/
def failOnceStep : AsyncFn Nat := fun v c =>
  if c.retryCount = 0 then ⟨0, Except.error "transient"⟩ else ⟨0, Except.ok v⟩

/-- A step whose failure message already quotes the step name `fetch`
without containing the full `(at step 'fetch')` suffix. -/
def quotedFailStep : AsyncFn Nat := fun _ _ => ⟨0, Except.error "bad 'fetch' input"⟩

theorem aborted_none (t : Nat) : aborted none t = false := rfl

theorem suffixError_kind (n : Option String) (e : JsError) :
    (suffixError n e).kind = e.kind := by
  unfold suffixError
  dsimp only
  split <;> rfl

/-- A successful first attempt returns at once: one invocation, no sleep,
no retry consumed. -/
theorem executeSingleStep_ok (fn : AsyncFn V) (input : V) (ctx : Ctx)
    (r d : Nat) (st ft : Option Nat) (t : Nat) (w : V)
    (hsig : aborted ctx.signal t = false)
    (hok : (fn input { ctx with retryCount := 0 }).result = Except.ok w)
    (hnf : noFire st ft (fn input { ctx with retryCount := 0 }).duration) :
    executeSingleStep fn input ctx r d st ft t =
      ⟨Except.ok w, [{ ctx with retryCount := 0 }], [],
        t + (fn input { ctx with retryCount := 0 }).duration⟩ := by
  unfold executeSingleStep
  rw [execFrom.eq_def]
  dsimp only
  rw [hsig]
  simp only [if_neg Bool.false_ne_true]
  unfold noFire at hnf
  cases heff : st <|> ft with
  | none =>
    dsimp only
    rw [hok]
    simp [userRes, Except.mapError]
  | some m =>
    rw [heff] at hnf
    have hcond : ¬ (m ≠ 0 ∧ m ≤ (fn input { ctx with retryCount := 0 }).duration) := by
      rcases hnf with h0 | hlt
      · intro hc; exact hc.1 h0
      · intro hc; omega
    dsimp only
    rw [if_neg hcond]
    rw [hok]
    simp [userRes, Except.mapError]

theorem runGo_pure (flowTimeout : Option Nat) {steps : List (SStep V)}
    {gs : List (V → V)} (h : List.Forall₂ (PureNoFire flowTimeout) steps gs) :
    ∀ (x : V) (i t : Nat),
      (runGo flowTimeout none steps i x t).result =
        Except.ok (gs.foldl (fun a g => g a) x) := by
  induction h with
  | nil => intro x i t; rfl
  | @cons s g steps' gs' hrel _ ih =>
    intro x i t
    rw [runGo]
    rw [aborted_none]
    simp only [if_neg Bool.false_ne_true]
    rw [executeSingleStep_ok s.fn x ⟨none, i, s.name, 0⟩ (s.retries.getD 0)
      (effRetryDelay s.retryDelay) s.timeout flowTimeout t (g x) rfl
      (hrel x _).1 (hrel x _).2]
    simp only [List.foldl_cons]
    exact ih (g x) (i + 1) _

/-- C1: for a flow of steps whose functions are pure transformations
`g1, …, gk` with no failures, no firing timeout and no cancellation, `run`
threads each step's output into the next and returns
`gk (… (g1 x))` — the left fold of the step functions over the input. -/
theorem run_sequential_composition (flowTimeout : Option Nat)
    (steps : List (SStep V)) (gs : List (V → V))
    (h : List.Forall₂ (PureNoFire flowTimeout) steps gs) (x : V) :
    (runFlow flowTimeout none steps x none).result =
      Except.ok (gs.foldl (fun a g => g a) x) :=
  runGo_pure flowTimeout h x 0 0

/-- C1 witness: the spec's example flow `[n ↦ n + 1, n ↦ n * 2]` run on 1
returns 4. -/
theorem run_sequential_composition_witness :
    (runFlow (V := Nat) none none
        [⟨fun v _ => ⟨0, Except.ok (v + 1)⟩, none, none, none, none⟩,
         ⟨fun v _ => ⟨0, Except.ok (v * 2)⟩, none, none, none, none⟩]
        1 none).result = Except.ok 4 := by
  have h := run_sequential_composition (V := Nat) none
    [⟨fun v _ => ⟨0, Except.ok (v + 1)⟩, none, none, none, none⟩,
     ⟨fun v _ => ⟨0, Except.ok (v * 2)⟩, none, none, none, none⟩]
    [fun v => v + 1, fun v => v * 2]
    (by
      refine List.Forall₂.cons ?_ (List.Forall₂.cons ?_ List.Forall₂.nil) <;>
        exact fun v c => ⟨rfl, trivial⟩)
    1
  simpa using h

theorem range'_cons (a n : Nat) :
    List.range' a (n + 1) = a :: List.range' (a + 1) n := by
  simp [List.range'_succ]

/-- Behaviour of the attempt loop with no signal and no timeout when the
function fails on every attempt number below `k` and succeeds at `k`:
the loop returns the success, having invoked the function with retry counts
`a, a+1, …, k` and slept `d * (1 << i)` after each failed attempt `i`. -/
theorem execFrom_retrySpec (fn : AsyncFn V) (input : V) (si : Nat)
    (sn : Option String) (rc0 : Nat) (d : Nat) (k : Nat) (w : V)
    (hf : ∀ j, j < k →
      ∃ m, (fn input ⟨none, si, sn, j⟩).result = Except.error m)
    (hs : (fn input ⟨none, si, sn, k⟩).result = Except.ok w) :
    ∀ (left a t : Nat), a ≤ k → k ≤ a + left →
      (execFrom fn input ⟨none, si, sn, rc0⟩ d none none a left t).result =
        Except.ok w ∧
      (execFrom fn input ⟨none, si, sn, rc0⟩ d none none a left t).invocations.map
        Ctx.retryCount = List.range' a (k - a + 1) ∧
      (execFrom fn input ⟨none, si, sn, rc0⟩ d none none a left t).sleeps =
        (List.range' a (k - a)).map (fun i => ((d : Int) * jsShl1 i).toNat) := by
  intro left
  induction left with
  | zero =>
    intro a t ha hk
    have hak : a = k := by omega
    subst hak
    rw [execFrom.eq_def]
    simp only [aborted_none, Bool.false_eq_true, if_false, Option.none_orElse]
    rw [hs]
    simp [userRes, Except.mapError, List.range']
  | succ left' ih =>
    intro a t ha hk
    by_cases hak : a = k
    · subst hak
      rw [execFrom.eq_def]
      simp only [aborted_none, Bool.false_eq_true, if_false, Option.none_orElse]
      rw [hs]
      simp [userRes, Except.mapError, List.range']
    · have halt : a < k := by omega
      obtain ⟨m, hm⟩ := hf a halt
      rw [execFrom.eq_def]
      simp only [aborted_none, Bool.false_eq_true, if_false, Option.none_orElse]
      rw [hm]
      simp only [userRes, Except.mapError, sleepResult]
      refine ⟨(ih (a + 1) _ (by omega) (by omega)).1, ?_, ?_⟩
      · have hr : k - a + 1 = (k - (a + 1) + 1) + 1 := by omega
        rw [hr, range'_cons]
        simp only [List.map_cons, List.cons.injEq]
        exact ⟨trivial, (ih (a + 1) _ (by omega) (by omega)).2.1⟩
      · have hr : k - a = (k - (a + 1)) + 1 := by omega
        rw [hr, range'_cons]
        simp only [List.map_cons, List.cons.injEq]
        exact ⟨trivial, (ih (a + 1) _ (by omega) (by omega)).2.2⟩

theorem execFrom_invocations_le (fn : AsyncFn V) (input : V) (ctx : Ctx)
    (d : Nat) (st ft : Option Nat) :
    ∀ (left a t : Nat),
      (execFrom fn input ctx d st ft a left t).invocations.length ≤ left + 1 := by
  intro left
  induction left with
  | zero =>
    intro a t
    rw [execFrom.eq_def]
    dsimp only
    split
    · simp
    · split <;> simp
  | succ left' ih =>
    intro a t
    rw [execFrom.eq_def]
    dsimp only
    split
    · simp
    · split
      · simp
      · split
        · simp
        · simp only [List.length_cons]
          exact Nat.succ_le_succ (ih _ _)

/-- C4: a step's function is invoked at most `retries + 1` times by one
execution of the step; and when the function fails at every retry count
below `k` and succeeds at retry count `k ≤ retries`, the executor returns
that success after exactly `k + 1` invocations whose observed
`context.retryCount` values are `0, 1, …, k` — in particular the final,
successful invocation observes `context.retryCount = k`. -/
theorem retry_invocation_count (fn : AsyncFn V) (input : V) (si : Nat)
    (sn : Option String) (rc0 : Nat) (r d k : Nat) (w : V) (t : Nat)
    (hk : k ≤ r)
    (hf : ∀ j, j < k →
      ∃ m, (fn input ⟨none, si, sn, j⟩).result = Except.error m)
    (hs : (fn input ⟨none, si, sn, k⟩).result = Except.ok w) :
    (∀ (fn' : AsyncFn V) (input' : V) (ctx' : Ctx) (r' d' : Nat)
        (st ft : Option Nat) (t' : Nat),
      (executeSingleStep fn' input' ctx' r' d' st ft t').invocations.length ≤
        r' + 1) ∧
    (executeSingleStep fn input ⟨none, si, sn, rc0⟩ r d none none t).result =
      Except.ok w ∧
    (executeSingleStep fn input ⟨none, si, sn, rc0⟩ r d
        none none t).invocations.length = k + 1 ∧
    (executeSingleStep fn input ⟨none, si, sn, rc0⟩ r d
        none none t).invocations.map Ctx.retryCount = List.range (k + 1) := by
  obtain ⟨h1, h2, h3⟩ :=
    execFrom_retrySpec fn input si sn rc0 d k w hf hs r 0 t (by omega) (by omega)
  simp only [executeSingleStep]
  refine ⟨fun fn' input' ctx' r' d' st ft t' =>
    execFrom_invocations_le fn' input' ctx' d' st ft r' 0 t', h1, ?_, ?_⟩
  · have hlen := congrArg List.length h2
    simp only [List.length_map, List.length_range'] at hlen
    omega
  · rw [List.range_eq_range']
    simpa using h2

/-- C4 witness: the test suite's flaky step (fails while `retryCount < 2`,
then returns `n + retryCount`) configured `retry(3, 1)` and run on 1:
result 3 after exactly 3 invocations observing retry counts 0, 1, 2. -/
theorem retry_invocation_count_witness :
    (executeSingleStep flakyStep 1 ⟨none, 0, none, 0⟩ 3 1 none none 0).result =
      Except.ok 3 ∧
    (executeSingleStep flakyStep 1 ⟨none, 0, none, 0⟩ 3 1
      none none 0).invocations.length = 3 ∧
    (executeSingleStep flakyStep 1 ⟨none, 0, none, 0⟩ 3 1
      none none 0).invocations.map Ctx.retryCount = List.range 3 := by
  have h := retry_invocation_count flakyStep 1 0 none 0 3 1 2 3 0 (by omega)
    (fun j hj => ⟨"transient", by simp [flakyStep, hj]⟩)
    (by simp [flakyStep])
  exact ⟨h.2.1, h.2.2.1, h.2.2.2⟩

/-- C5: when the cancellation token is already set as an attempt is about to
start, the step executor fails at once with a cancellation error: the step
function is never invoked, no backoff sleep completes and no time passes,
whatever the remaining retry budget. -/
theorem cancelled_before_attempt (fn : AsyncFn V) (input : V) (ctx : Ctx)
    (r d : Nat) (st ft : Option Nat) (t : Nat)
    (h : aborted ctx.signal t = true) :
    ∃ e, (executeSingleStep fn input ctx r d st ft t).result = Except.error e ∧
      e.kind = ErrKind.cancelled ∧
      (executeSingleStep fn input ctx r d st ft t).invocations = [] ∧
      (executeSingleStep fn input ctx r d st ft t).sleeps = [] ∧
      (executeSingleStep fn input ctx r d st ft t).time = t := by
  have hres : executeSingleStep fn input ctx r d st ft t =
      (match r with
      | 0 => ⟨Except.error (suffixError ctx.stepName pipelineAbortedErr), [], [], t⟩
      | _ + 1 => (⟨Except.error sleepAbortedErr, [], [], t⟩ : ExecOut V)) := by
    unfold executeSingleStep
    rw [execFrom.eq_def]
    dsimp only
    rw [h]
    simp
  cases r with
  | zero =>
    rw [hres]
    exact ⟨suffixError ctx.stepName pipelineAbortedErr, rfl,
      by rw [suffixError_kind]; rfl, rfl, rfl, rfl⟩
  | succ r' =>
    rw [hres]
    exact ⟨sleepAbortedErr, rfl, rfl, rfl, rfl, rfl⟩

/-- C5 witness: a signal aborted from instant 0 and a retry budget of 2. -/
theorem cancelled_before_attempt_witness :
    aborted (some 0) 0 = true ∧
    ∃ e, (executeSingleStep (fun v _ => ⟨0, Except.ok v⟩) (1 : Nat)
        ⟨some 0, 0, none, 0⟩ 2 100 none none 0).result = Except.error e ∧
      e.kind = ErrKind.cancelled ∧
      (executeSingleStep (fun v _ => ⟨0, Except.ok v⟩) (1 : Nat)
        ⟨some 0, 0, none, 0⟩ 2 100 none none 0).invocations = [] ∧
      (executeSingleStep (fun v _ => ⟨0, Except.ok v⟩) (1 : Nat)
        ⟨some 0, 0, none, 0⟩ 2 100 none none 0).sleeps = [] ∧
      (executeSingleStep (fun v _ => ⟨0, Except.ok v⟩) (1 : Nat)
        ⟨some 0, 0, none, 0⟩ 2 100 none none 0).time = 0 :=
  ⟨rfl, cancelled_before_attempt (fun v _ => ⟨0, Except.ok v⟩) 1
    ⟨some 0, 0, none, 0⟩ 2 100 none none 0 rfl⟩

theorem execFrom_timeout_zero (fn : AsyncFn V) (input : V) (ctx : Ctx)
    (d : Nat) (st ft : Option Nat) (heff : (st <|> ft) = some 0) :
    ∀ (left a t : Nat),
      execFrom fn input ctx d st ft a left t =
        execFrom fn input ctx d none none a left t := by
  intro left
  induction left with
  | zero =>
    intro a t
    rw [execFrom.eq_def]
    rw [execFrom.eq_def]
    rw [heff]
    simp
  | succ left' ih =>
    intro a t
    rw [execFrom.eq_def]
    rw [execFrom.eq_def]
    rw [heff]
    simp [ih]

theorem sleepResult_error (sig : Option Nat) (t : Nat) (delay : Int)
    (w : Nat) (se : JsError) (h : sleepResult sig t delay = (w, some se)) :
    se = sleepAbortedErr := by
  unfold sleepResult at h
  cases sig with
  | none => simp at h
  | some a =>
    by_cases h1 : a ≤ t
    · simp only [if_pos h1, Prod.mk.injEq, Option.some.injEq] at h
      exact h.2.symm
    · by_cases h2 : a < t + delay.toNat
      · simp only [if_neg h1, if_pos h2, Prod.mk.injEq, Option.some.injEq] at h
        exact h.2.symm
      · simp [if_neg h1, if_neg h2] at h

theorem execFrom_error_kind (fn : AsyncFn V) (input : V) (ctx : Ctx) (d : Nat) :
    ∀ (left a t : Nat) (e : JsError),
      (execFrom fn input ctx d none none a left t).result = Except.error e →
      e.kind = ErrKind.cancelled ∨ e.kind = ErrKind.userError := by
  intro left
  induction left with
  | zero =>
    intro a t e he
    rw [execFrom.eq_def] at he
    dsimp only at he
    split at he
    · simp only [Except.error.injEq] at he
      left
      rw [← he, suffixError_kind]
      rfl
    · cases hfr : (fn input { ctx with retryCount := a }).result with
      | ok v =>
        rw [hfr] at he
        simp [Option.none_orElse, userRes, Except.mapError] at he
      | error s =>
        rw [hfr] at he
        simp only [Option.none_orElse, userRes, Except.mapError,
          Except.error.injEq] at he
        right
        rw [← he, suffixError_kind]
  | succ left' ih =>
    intro a t e he
    rw [execFrom.eq_def] at he
    dsimp only at he
    split at he
    · simp only [Except.error.injEq] at he
      left
      rw [← he]
      rfl
    · cases hfr : (fn input { ctx with retryCount := a }).result with
      | ok v =>
        rw [hfr] at he
        simp [Option.none_orElse, userRes, Except.mapError] at he
      | error s =>
        rw [hfr] at he
        simp only [Option.none_orElse, userRes, Except.mapError] at he
        split at he
        · rename_i w se hsl
          simp only [Except.error.injEq] at he
          left
          rw [← he, sleepResult_error _ _ _ _ _ hsl]
          rfl
        · exact ih _ _ e he

/-- C10: a step whose effective timeout computes to 0 — `stepTimeout(0)` on
the step, or no step-specific timeout and a flow-level `timeout(0)` — runs
its function with no timeout race at all: the execution is identical to one
with no timeout configured (in particular `stepTimeout(0)` suppresses any
non-zero flow-level default rather than falling back to it), and no attempt
can fail with a `Timeout` error. -/
theorem timeout_zero_no_race (fn : AsyncFn V) (input : V) (ctx : Ctx)
    (r d : Nat) (ft : Option Nat) (t : Nat) :
    executeSingleStep fn input ctx r d (some 0) ft t =
      executeSingleStep fn input ctx r d none none t ∧
    executeSingleStep fn input ctx r d none (some 0) t =
      executeSingleStep fn input ctx r d none none t ∧
    (∀ e, (executeSingleStep fn input ctx r d (some 0) ft t).result =
        Except.error e → e.kind ≠ ErrKind.timedOut) ∧
    (∀ e, (executeSingleStep fn input ctx r d none (some 0) t).result =
        Except.error e → e.kind ≠ ErrKind.timedOut) := by
  have h1 : executeSingleStep fn input ctx r d (some 0) ft t =
      executeSingleStep fn input ctx r d none none t :=
    execFrom_timeout_zero fn input ctx d (some 0) ft rfl r 0 t
  have h2 : executeSingleStep fn input ctx r d none (some 0) t =
      executeSingleStep fn input ctx r d none none t :=
    execFrom_timeout_zero fn input ctx d none (some 0) rfl r 0 t
  refine ⟨h1, h2, ?_, ?_⟩
  · intro e he hk
    rw [h1] at he
    rcases execFrom_error_kind fn input ctx d r 0 t e he with h | h <;>
      rw [hk] at h <;> cases h
  · intro e he hk
    rw [h2] at he
    rcases execFrom_error_kind fn input ctx d r 0 t e he with h | h <;>
      rw [hk] at h <;> cases h

theorem mem_set_of_get_ne {α : Type} {l : List α} {a : α} (h : a ∈ l)
    (w : Nat) (y : α) (hne : l.get? w ≠ some a) : a ∈ l.set w y := by
  obtain ⟨j, hj⟩ := List.mem_iff_get?.mp h
  have hjw : w ≠ j := by
    intro hh
    subst hh
    exact hne hj
  refine List.mem_iff_get?.mpr ⟨j, ?_⟩
  rw [List.get?_set_ne y l hjw, hj]

theorem mem_set_self {α : Type} {l : List α} {w : Nat} (hw : w < l.length)
    (y : α) : y ∈ l.set w y :=
  List.mem_iff_get?.mpr ⟨w, List.get?_set_eq_of_lt y hw⟩

/-- Invariant of the batch scheduler: the results array and the worker pool
keep their sizes; the claim log is exactly `0, 1, …, min(cursor, N) - 1`
(each index is claimed at most once, in cursor order); every claimed index
is either owned by a running worker, already stored with its deterministic
`run` result, or belongs to a failed `run` whose failure some worker
recorded; and a worker can only be `done` once the cursor has passed `N`. -/
def BatchInv (N C : Nat) (exec : Nat → Except JsError V) (s : BatchState V) : Prop :=
  s.results.length = N ∧
  s.workers.length = min C N ∧
  s.claims = List.range (min s.cursor N) ∧
  (∀ i, i < min s.cursor N →
    WStatus.running i ∈ s.workers ∨
    (∃ v, exec i = Except.ok v ∧ s.results.get? i = some (some v)) ∨
    ((∃ e, exec i = Except.error e) ∧ WStatus.failed ∈ s.workers)) ∧
  (WStatus.done ∈ s.workers → N ≤ s.cursor)

theorem batchInit_inv (N C : Nat) (exec : Nat → Except JsError V) :
    BatchInv N C exec (batchInit V N C) := by
  refine ⟨by simp [batchInit], by simp [batchInit], by simp [batchInit], ?_, ?_⟩
  · intro i hi
    simp [batchInit] at hi
  · intro hd
    cases List.eq_of_mem_replicate hd

theorem batchStep_inv (N C : Nat) (exec : Nat → Except JsError V)
    (s : BatchState V) (w : Nat) (h : BatchInv N C exec s) :
    BatchInv N C exec (batchStep N exec s w) := by
  obtain ⟨hres, hwork, hclaims, hown, hdone⟩ := h
  unfold batchStep
  cases hget : s.workers.get? w with
  | none => exact ⟨hres, hwork, hclaims, hown, hdone⟩
  | some st =>
    have hw : w < s.workers.length := (List.get?_eq_some.mp hget).1
    cases st with
    | idle =>
      dsimp only
      by_cases hcur : s.cursor < N
      · rw [if_pos hcur]
        refine ⟨hres, by simp [List.length_set, hwork], ?_, ?_, ?_⟩
        · have h2 : min (s.cursor + 1) N = s.cursor + 1 := by omega
          have h1 : min s.cursor N = s.cursor := by omega
          simp only [h2]
          rw [hclaims, h1, List.range_succ]
        · intro i hi
          have h2 : min (s.cursor + 1) N = s.cursor + 1 := by omega
          rw [h2] at hi
          by_cases hic : i = s.cursor
          · subst hic
            exact Or.inl (mem_set_self hw _)
          · have hi' : i < min s.cursor N := by omega
            rcases hown i hi' with hrun | hstore | hfail
            · exact Or.inl (mem_set_of_get_ne hrun w _ (by rw [hget]; simp))
            · exact Or.inr (Or.inl hstore)
            · exact Or.inr (Or.inr ⟨hfail.1,
                mem_set_of_get_ne hfail.2 w _ (by rw [hget]; simp)⟩)
        · intro hd
          rcases List.mem_or_eq_of_mem_set hd with hd' | hd'
          · have := hdone hd'
            omega
          · cases hd'
      · rw [if_neg hcur]
        refine ⟨hres, by simp [List.length_set, hwork], ?_, ?_, ?_⟩
        · have h2 : min (s.cursor + 1) N = min s.cursor N := by omega
          rw [h2, hclaims]
        · intro i hi
          have h2 : min (s.cursor + 1) N = min s.cursor N := by omega
          rw [h2] at hi
          rcases hown i hi with hrun | hstore | hfail
          · exact Or.inl (mem_set_of_get_ne hrun w _ (by rw [hget]; simp))
          · exact Or.inr (Or.inl hstore)
          · exact Or.inr (Or.inr ⟨hfail.1,
              mem_set_of_get_ne hfail.2 w _ (by rw [hget]; simp)⟩)
        · intro _
          dsimp only
          omega
    | running i =>
      dsimp only
      cases hexec : exec i with
      | ok v =>
        dsimp only
        refine ⟨by simp [List.length_set, hres], by simp [List.length_set, hwork],
          hclaims, ?_, ?_⟩
        · intro i' hi'
          by_cases hii : i' = i
          · subst hii
            refine Or.inr (Or.inl ⟨v, hexec, ?_⟩)
            have hlt : i' < s.results.length := by omega
            rw [List.get?_set_eq_of_lt _ hlt]
          · rcases hown i' hi' with hrun | ⟨v', hex', hr'⟩ | hfail
            · refine Or.inl (mem_set_of_get_ne hrun w _ ?_)
              rw [hget]
              simp
              intro hh
              exact hii hh.symm
            · refine Or.inr (Or.inl ⟨v', hex', ?_⟩)
              rw [List.get?_set_ne _ _ (fun hh => hii (hh.symm))]
              exact hr'
            · exact Or.inr (Or.inr ⟨hfail.1,
                mem_set_of_get_ne hfail.2 w _ (by rw [hget]; simp)⟩)
        · intro hd
          rcases List.mem_or_eq_of_mem_set hd with hd' | hd'
          · exact hdone hd'
          · cases hd'
      | error e =>
        dsimp only
        refine ⟨hres, by simp [List.length_set, hwork], hclaims, ?_, ?_⟩
        · intro i' hi'
          by_cases hii : i' = i
          · subst hii
            exact Or.inr (Or.inr ⟨⟨e, hexec⟩, mem_set_self hw _⟩)
          · rcases hown i' hi' with hrun | hstore | hfail
            · refine Or.inl (mem_set_of_get_ne hrun w _ ?_)
              rw [hget]
              simp
              intro hh
              exact hii hh.symm
            · exact Or.inr (Or.inl hstore)
            · exact Or.inr (Or.inr ⟨hfail.1, mem_set_self hw _⟩)
        · intro hd
          rcases List.mem_or_eq_of_mem_set hd with hd' | hd'
          · exact hdone hd'
          · cases hd'
    | done => exact ⟨hres, hwork, hclaims, hown, hdone⟩
    | failed => exact ⟨hres, hwork, hclaims, hown, hdone⟩

theorem batchRun_inv (N C : Nat) (exec : Nat → Except JsError V)
    (sched : List Nat) :
    BatchInv N C exec (batchRun N C exec sched) := by
  unfold batchRun
  have h : ∀ (l : List Nat) (s : BatchState V), BatchInv N C exec s →
      BatchInv N C exec (l.foldl (batchStep N exec) s) := by
    intro l
    induction l with
    | nil => intro s hs; exact hs
    | cons w rest ih =>
      intro s hs
      exact ih _ (batchStep_inv N C exec s w hs)
  exact h sched _ (batchInit_inv N C exec)

/-- C3: with `0 < C < N = inputs.length`, under every interleaving of the
worker pool the claim log is duplicate-free with entries below `N`, and on a
completed batch (all workers done) the log is exactly `0, 1, …, N-1` — each
index claimed by exactly one worker, none skipped — while `results[i]` holds
exactly the value of `run(flow, inputs[i])` for every `i < N`, regardless of
the completion order the schedule realised. -/
theorem runMany_claims_and_results (flowTimeout flowSignal optSignal : Option Nat)
    (steps : List (SStep V)) (inputs : List V) (x0 : V) (C : Nat)
    (sched : List Nat) (hC : 0 < C) (hCN : C < inputs.length) :
    (batchRun inputs.length C
        (fun i => (runFlow flowTimeout flowSignal steps (inputs.getD i x0)
          optSignal).result) sched).claims.Nodup ∧
    (∀ i ∈ (batchRun inputs.length C
        (fun i => (runFlow flowTimeout flowSignal steps (inputs.getD i x0)
          optSignal).result) sched).claims, i < inputs.length) ∧
    ((∀ wk ∈ (batchRun inputs.length C
        (fun i => (runFlow flowTimeout flowSignal steps (inputs.getD i x0)
          optSignal).result) sched).workers, wk = WStatus.done) →
      (batchRun inputs.length C
        (fun i => (runFlow flowTimeout flowSignal steps (inputs.getD i x0)
          optSignal).result) sched).claims = List.range inputs.length ∧
      ∀ i, i < inputs.length → ∃ v,
        (runFlow flowTimeout flowSignal steps (inputs.getD i x0)
          optSignal).result = Except.ok v ∧
        (batchRun inputs.length C
          (fun i => (runFlow flowTimeout flowSignal steps (inputs.getD i x0)
            optSignal).result) sched).results.get? i = some (some v)) := by
  obtain ⟨hres, hwork, hclaims, hown, hdone⟩ :=
    batchRun_inv inputs.length C
      (fun i => (runFlow flowTimeout flowSignal steps (inputs.getD i x0)
        optSignal).result) sched
  refine ⟨?_, ?_, ?_⟩
  · rw [hclaims]
    exact List.nodup_range _
  · intro i hi
    rw [hclaims] at hi
    have := List.mem_range.mp hi
    omega
  · intro hall
    have hne : (batchRun inputs.length C
        (fun i => (runFlow flowTimeout flowSignal steps (inputs.getD i x0)
          optSignal).result) sched).workers ≠ [] := by
      intro hnil
      rw [hnil] at hwork
      simp at hwork
      omega
    obtain ⟨wk, hwk⟩ := List.exists_mem_of_ne_nil _ hne
    have hN : inputs.length ≤ (batchRun inputs.length C
        (fun i => (runFlow flowTimeout flowSignal steps (inputs.getD i x0)
          optSignal).result) sched).cursor := by
      apply hdone
      rw [← hall wk hwk]
      exact hwk
    have hmin : min (batchRun inputs.length C
        (fun i => (runFlow flowTimeout flowSignal steps (inputs.getD i x0)
          optSignal).result) sched).cursor inputs.length = inputs.length := by
      omega
    refine ⟨by rw [hclaims, hmin], ?_⟩
    intro i hi
    have hi' : i < min (batchRun inputs.length C
        (fun i => (runFlow flowTimeout flowSignal steps (inputs.getD i x0)
          optSignal).result) sched).cursor inputs.length := by omega
    rcases hown i hi' with hrun | hstore | hfail
    · have := hall _ hrun
      cases this
    · exact hstore
    · have := hall _ hfail.2
      cases this

/-- C3 witness: three inputs, two workers, the flow `n ↦ n + 1`; the
schedule lets worker 0 drain the cursor and worker 1 then finish. -/
theorem runMany_claims_and_results_witness :
    (batchRun 3 2
        (fun i => (runFlow none none
          [⟨fun v _ => ⟨0, Except.ok (v + 1)⟩, none, none, none, none⟩]
          (([10, 20, 30] : List Nat).getD i 0) none).result)
        [0, 0, 0, 0, 0, 0, 0, 1]).claims = List.range 3 ∧
    (batchRun 3 2
        (fun i => (runFlow none none
          [⟨fun v _ => ⟨0, Except.ok (v + 1)⟩, none, none, none, none⟩]
          (([10, 20, 30] : List Nat).getD i 0) none).result)
        [0, 0, 0, 0, 0, 0, 0, 1]).results = [some 11, some 21, some 31] := by
  have h := runMany_claims_and_results (V := Nat) none none none
    [⟨fun v _ => ⟨0, Except.ok (v + 1)⟩, none, none, none, none⟩]
    [10, 20, 30] 0 2 [0, 0, 0, 0, 0, 0, 0, 1] (by omega) (by decide)
  refine ⟨(h.2.2 (by decide)).1, by decide⟩

/-- C9: with `0 < C < N = inputs.length`, after any schedule prefix the
number of in-flight `run` invocations is at most `C`: the pool holds exactly
`min(C, N) = C` workers and each holds at most one invocation. -/
theorem runMany_concurrency_bound (flowTimeout flowSignal optSignal : Option Nat)
    (steps : List (SStep V)) (inputs : List V) (x0 : V) (C : Nat)
    (sched : List Nat) (hC : 0 < C) (hCN : C < inputs.length) :
    inFlight (batchRun inputs.length C
      (fun i => (runFlow flowTimeout flowSignal steps (inputs.getD i x0)
        optSignal).result) sched) ≤ C := by
  have hwork := (batchRun_inv inputs.length C
    (fun i => (runFlow flowTimeout flowSignal steps (inputs.getD i x0)
      optSignal).result) sched).2.1
  calc inFlight (batchRun inputs.length C
      (fun i => (runFlow flowTimeout flowSignal steps (inputs.getD i x0)
        optSignal).result) sched)
      ≤ (batchRun inputs.length C
        (fun i => (runFlow flowTimeout flowSignal steps (inputs.getD i x0)
          optSignal).result) sched).workers.length := List.countP_le_length _
    _ = min C inputs.length := hwork
    _ ≤ C := Nat.min_le_left ..

/-- C9 witness: three inputs, two workers, a schedule prefix on which both
workers hold an invocation: the in-flight count is 2 ≤ 2. -/
theorem runMany_concurrency_bound_witness :
    inFlight (batchRun 3 2
      (fun i => (runFlow none none
        [⟨fun v _ => ⟨0, Except.ok (v + 1)⟩, none, none, none, none⟩]
        (([10, 20, 30] : List Nat).getD i 0) none).result) [0, 1]) ≤ 2 :=
  runMany_concurrency_bound none none none
    [⟨fun v _ => ⟨0, Except.ok (v + 1)⟩, none, none, none, none⟩]
    [10, 20, 30] 0 2 [0, 1] (by omega) (by decide)

theorem jsShl1_small (i : Nat) (h : i ≤ 30) : jsShl1 i = 2 ^ i := by
  unfold jsShl1
  have h32 : i % 32 = i := Nat.mod_eq_of_lt (by omega)
  rw [h32, if_neg (by omega)]

theorem mul_jsShl1_toNat (d i : Nat) (h : i ≤ 30) :
    ((d : Int) * jsShl1 i).toNat = d * 2 ^ i := by
  rw [jsShl1_small i h]
  have hcast : ((d : Int) * 2 ^ i) = ((d * 2 ^ i : Nat) : Int) := by push_cast; ring
  rw [hcast, Int.toNat_ofNat]

/-- C6 (amended): within `run`, the backoff slept between attempts `i` and
`i + 1` of a step configured `retry(r, d)` equals `d' * 2^i`, where `d'` is
the configured `d` when `d ≠ 0` but the default 100 when `d = 0`
(`step.retryDelay || 100`, core.ts line 156, treats a configured 0 as
absent); this closed form holds for attempts `i ≤ 30` — the shift `1 << i`
at line 203 is a signed 32-bit operation, so at `i = 31` the computed delay
wraps negative — and within that range the backoff sequence is monotonically
non-decreasing. -/
theorem backoff_exponential (fn : AsyncFn V) (v : V) (nm : Option String)
    (r d m : Nat) (w : V) (hm : m ≤ r) (h31 : m ≤ 31)
    (hf : ∀ j, j < m →
      ∃ msg, (fn v ⟨none, 0, nm, j⟩).result = Except.error msg)
    (hs : (fn v ⟨none, 0, nm, m⟩).result = Except.ok w) :
    (runFlow none none [⟨fn, some r, some d, none, nm⟩] v none).trace.map
        ExecOut.sleeps =
      [(List.range m).map (fun i => effRetryDelay (some d) * 2 ^ i)] ∧
    (∀ i j, i ≤ j → j ≤ 30 →
      effRetryDelay (some d) * 2 ^ i ≤ effRetryDelay (some d) * 2 ^ j) := by
  constructor
  · obtain ⟨h1, h2, h3⟩ := execFrom_retrySpec fn v 0 nm 0 (effRetryDelay (some d))
      m w hf hs r 0 0 (by omega) (by omega)
    have hrf : runFlow none none [⟨fn, some r, some d, none, nm⟩] v none =
        runGo none none [⟨fn, some r, some d, none, nm⟩] 0 v 0 := rfl
    rw [hrf, runGo, aborted_none]
    simp only [if_neg Bool.false_ne_true, executeSingleStep, Option.getD]
    rw [h1]
    simp only [runGo, List.map_cons, List.map_nil]
    rw [h3]
    simp only [Nat.sub_zero, List.cons.injEq, and_true]
    rw [List.range_eq_range']
    refine List.map_congr_left ?_
    intro i hi
    have hi' : i < m := by
      have := List.mem_range'_1.mp hi
      omega
    exact mul_jsShl1_toNat _ i (by omega)
  · intro i j hij hj
    exact Nat.mul_le_mul_left _ (Nat.pow_le_pow_right (by omega) hij)

/-- C6 counterexample: a step configured `retry(1, 0)` whose function fails
exactly once. The claim predicts a backoff of `0 * 2^0 = 0` ms between
attempts 0 and 1; the engine sleeps 100 ms, because `step.retryDelay || 100`
(line 156) replaces the configured 0 with the default 100. -/
theorem backoff_zero_delay_counterexample :
    (runFlow none none [⟨failOnceStep, some 1, some 0, none, none⟩]
        (1 : Nat) none).trace.map ExecOut.sleeps = [[100]] ∧
    (runFlow none none [⟨failOnceStep, some 1, some 0, none, none⟩]
        (1 : Nat) none).trace.map ExecOut.sleeps ≠ [[0 * 2 ^ 0]] := by
  refine ⟨by decide, by decide⟩

/-- C6 witness: a step configured `retry(2, 5)` failing at attempts 0 and 1,
succeeding at attempt 2: the engine sleeps 5 ms then 10 ms. -/
theorem backoff_exponential_witness :
    (runFlow none none [⟨flakyStep, some 2, some 5, none, none⟩]
        (1 : Nat) none).trace.map ExecOut.sleeps =
      [(List.range 2).map (fun i => effRetryDelay (some 5) * 2 ^ i)] ∧
    (runFlow none none [⟨flakyStep, some 2, some 5, none, none⟩]
        (1 : Nat) none).trace.map ExecOut.sleeps = [[5, 10]] := by
  have h := backoff_exponential flakyStep 1 none 2 5 2 3 (by omega) (by omega)
    (fun j hj => ⟨"transient", by simp [flakyStep, hj]⟩)
    (by simp [flakyStep])
  exact ⟨h.1, by decide⟩

theorem execFrom_allFail (fn : AsyncFn V) (input : V) (si : Nat)
    (sn : Option String) (rc0 : Nat) (d : Nat) (msgf : Ctx → String)
    (hf : ∀ c, (fn input c).result = Except.error (msgf c)) :
    ∀ (left a t : Nat),
      (execFrom fn input ⟨none, si, sn, rc0⟩ d none none a left t).result =
        Except.error (suffixError sn
          ⟨ErrKind.userError, msgf ⟨none, si, sn, a + left⟩⟩) := by
  intro left
  induction left with
  | zero =>
    intro a t
    rw [execFrom.eq_def]
    simp only [aborted_none, Bool.false_eq_true, if_false, Option.none_orElse]
    rw [hf ⟨none, si, sn, a⟩]
    simp [userRes, Except.mapError]
  | succ left' ih =>
    intro a t
    have hh : a + (left' + 1) = (a + 1) + left' := by omega
    rw [hh]
    rw [execFrom.eq_def]
    simp only [aborted_none, Bool.false_eq_true, if_false, Option.none_orElse]
    rw [hf ⟨none, si, sn, a⟩]
    simp only [userRes, Except.mapError, sleepResult]
    exact ih (a + 1) _

/-- C7 (amended): when retries are exhausted, `execute` propagates the last
attempt's failure, and its message is suffixed ` (at step '<name>')` exactly
when the step has a non-empty name and the message does not already contain
the *quoted step name* ` '<name>'` — the code checks `includes` of the
quoted name (line 211), not of the full suffix; an unnamed (or empty-named)
step's failure message is propagated unmodified. -/
theorem exhausted_retries_suffix (fn : AsyncFn V) (input : V) (si : Nat)
    (sn : Option String) (rc0 : Nat) (r d t : Nat) (msgf : Ctx → String)
    (hf : ∀ c, (fn input c).result = Except.error (msgf c)) :
    (executeSingleStep fn input ⟨none, si, sn, rc0⟩ r d none none t).result =
      Except.error ⟨ErrKind.userError,
        if stepLabelOf sn ≠ "" ∧
            strIncl (msgf ⟨none, si, sn, r⟩) (stepLabelOf sn) = false then
          msgf ⟨none, si, sn, r⟩ ++ " (at step" ++ stepLabelOf sn ++ ")"
        else msgf ⟨none, si, sn, r⟩⟩ := by
  have h := execFrom_allFail fn input si sn rc0 d msgf hf r 0 t
  simp only [Nat.zero_add] at h
  rw [executeSingleStep, h]
  unfold suffixError
  dsimp only
  split
  · rfl
  · rfl

/-- C7 witness: a step named `fetch` whose function always throws `boom`
(which does not mention the name), configured `retry(1, 5)`: the propagated
message is `boom (at step 'fetch')`. -/
theorem exhausted_retries_suffix_witness :
    (executeSingleStep (fun _ _ => ⟨0, Except.error "boom"⟩) (1 : Nat)
        ⟨none, 0, some "fetch", 0⟩ 1 5 none none 0).result =
      Except.error ⟨ErrKind.userError, "boom (at step 'fetch')"⟩ := by
  have h := exhausted_retries_suffix (fun _ _ => ⟨0, Except.error "boom"⟩)
    (1 : Nat) 0 (some "fetch") 0 1 5 0 (fun _ => "boom") (fun _ => rfl)
  rw [h]
  rfl

/-- C7 counterexample: a step named `fetch` whose failure message
`bad 'fetch' input` quotes the name but does not contain the full suffix
`(at step 'fetch')`. The claim mandates suffixing (name present, suffix
absent from the message); the engine propagates the message unmodified,
because line 211 only checks for the quoted name ` 'fetch'`, which the
message already contains. -/
theorem suffix_check_counterexample :
    stepLabelOf (some "fetch") ≠ "" ∧
    strIncl "bad 'fetch' input"
      ("(at step" ++ stepLabelOf (some "fetch") ++ ")") = false ∧
    (runFlow none none [⟨quotedFailStep, none, none, none, some "fetch"⟩]
        (1 : Nat) none).result =
      Except.error ⟨ErrKind.userError, "bad 'fetch' input"⟩ ∧
    ("bad 'fetch' input" : String) ≠
      "bad 'fetch' input" ++ " (at step" ++ stepLabelOf (some "fetch") ++ ")" := by
  refine ⟨by decide, by decide, by rfl, by decide⟩

/-- C2 (code bug): the builder's configuration calls mutate the `Step`
object shared with previously returned flows. After `f1 = quantam().step(f)`
(the single step living at heap address 0) and `f1.name("renamed")`, the
object referenced by `f1`'s own last step carries the new name — before the
call it had none; `retry(5, 7)` likewise overwrites the shared object's
retry fields. -/
theorem builder_mutates_shared_step :
    (stepOp ⟨[], none, none⟩ [] 7).1.steps = [0] ∧
    ((stepOp ⟨[], none, none⟩ [] 7).2.get? 0).map StepObj.name = some none ∧
    (nameOp (stepOp ⟨[], none, none⟩ [] 7).1 (stepOp ⟨[], none, none⟩ [] 7).2
      "renamed").1 = (stepOp ⟨[], none, none⟩ [] 7).1 ∧
    ((nameOp (stepOp ⟨[], none, none⟩ [] 7).1 (stepOp ⟨[], none, none⟩ [] 7).2
      "renamed").2.get? 0).map StepObj.name = some (some "renamed") ∧
    ((retryOp (stepOp ⟨[], none, none⟩ [] 7).1 (stepOp ⟨[], none, none⟩ [] 7).2
      5 7).2.get? 0).map StepObj.retries = some (some 5) := by
  refine ⟨rfl, rfl, rfl, rfl, rfl⟩

/-- C8 counterexample: under the schedule forced by the members' timers, the
shared-context machine (what `executeParallelSteps` builds: one `context`
for all members, line 230) lets member B — itself still on attempt 0 —
read `retryCount = 1`, the value written by member A's retry attempt;
under the spec's per-member retry-count streams the same schedule reads 0. -/
theorem shared_context_counterexample :
    (parRunShared [memberA, memberB] groupSched).obs = [[], [1]] ∧
    (parRunIso [memberA, memberB] groupSched).obs = [[], [0]] ∧
    ([[], [1]] : List (List Nat)) ≠ [[], [0]] := by
  refine ⟨by decide, by decide, by decide⟩

/-- C8 (amended): every member of a parallel group receives the *same*
Execution Context object (`executeParallelSteps` passes `context` itself to
each member, line 230), so the members share the same step index and step
name but also the same retry-count field: a sibling's retry attempt can
change the `context.retryCount` a member's invocation observes. Concretely,
member B (on attempt 0) observes 1 after member A's retry, where its own
retry-count stream holds 0. -/
theorem shared_context_observation :
    (parRunShared [memberA, memberB] groupSched).obs.get? 1 = some [1] ∧
    (parRunShared [memberA, memberB] groupSched).rc = 1 ∧
    (parRunIso [memberA, memberB] groupSched).obs.get? 1 = some [0] ∧
    (parRunIso [memberA, memberB] groupSched).rcs.get? 1 = some 0 := by
  refine ⟨by decide, by decide, by decide, by decide⟩

end Quantam
